import Mathlib

/-!
Verification of the ssb-validate message validator (sunrise-choir/ssb-validate).

Shallow embedding conventions:
  - Rust byte slices are modelled as lists of natural numbers (each entry a byte value).
  - Rust strings are modelled as lists of natural numbers (each entry a Unicode scalar value).
  - The external dependencies (the legacy JSON codec ssb-legacy-msg-data and the SHA-256
    digest from the sha2 crate) are modelled as fields of a record of functions, `Deps`.
    Code of the repository itself (the regex patterns, the UTF-16 low byte transform,
    the structural and chain checks, the validators and the batch drivers) is translated
    directly into executable Lean definitions below.
  - Rust panics (the unwrap inside multihash_from_bytes, the expect on previous_key,
    and the explicit panic branch on a non-object generic parse) are modelled by the
    dedicated result constructor VRes.panicked.
  - The rayon try_fold / try_reduce batch pipeline is modelled by a left-to-right
    short-circuiting fold; the batch result is Ok exactly when every worker succeeds,
    which is the property the parallel pipeline guarantees independent of scheduling.
-/

/-- Unicode scalar values of a Lean string literal, used to write byte lists and
Rust string values legibly (for ASCII text the scalar values equal the byte values). -/
def litStr (s : String) : List Nat := s.data.map Char.toNat

/-- Model of the LegacyF64 type of ssb-legacy-msg-data: an opaque legacy float payload.
The validator never inspects timestamps, so the payload representation is irrelevant. -/
structure LegacyF64 where
  bits : Nat
deriving DecidableEq

/-- Model of ssb_multiformats::multihash::Multihash: a message hash or a blob hash,
carrying the digest bytes. -/
inductive Multihash where
  | Message (h : List Nat)
  | Blob (h : List Nat)
deriving DecidableEq

/-- Model of ssb_legacy_msg_data::value::Value: a generic legacy JSON tree.
Objects are ordered association lists, mirroring the order-preserving map of the codec. -/
inductive Value where
  | null
  | bool (b : Bool)
  | float (f : LegacyF64)
  | string (s : List Nat)
  | array (vs : List Value)
  | object (fields : List (List Nat × Value))

/-- Model of ssb_legacy_msg_data::value::ContentValue: a newtype around Value. -/
structure ContentValue where
  inner : Value

/-- Model of SsbMessageValue (src/message_value.rs): the strict schema for a message value.
The u64 sequence field is modelled as Nat. -/
structure SsbMessageValue where
  previous : Option Multihash
  author : List Nat
  sequence : Nat
  timestamp : LegacyF64
  hash : List Nat
  content : ContentValue
  signature : List Nat

/-- Model of SsbMessage (src/message.rs): a key-value message object. -/
structure SsbMessage where
  key : Multihash
  value : SsbMessageValue

/-- Model of the error enum of src/error.rs. The DecodeJsonError and EncodeJsonError
payloads of the decode and serialize failures are produced by the external codec and
are not modelled; the byte payloads and the diagnostic fields are kept. -/
inductive VErr where
  | InvalidPreviousMessage (message : List Nat)
  | InvalidMessage (message : List Nat)
  | InvalidMessageValueOrder (message : List Nat)
  | AuthorsDidNotMatch (previous_author : List Nat) (author : List Nat)
  | FirstMessageDidNotHaveSequenceOfOne (message : List Nat)
  | FirstMessageDidNotHavePreviousOfNull (message : List Nat)
  | InvalidHashFunction (message : List Nat)
  | InvalidBase64 (message : List Nat)
  | InvalidMessageValueLength (message : List Nat)
  | InvalidSequenceNumber (message : List Nat) (actual : Nat) (expected : Nat)
  | InvalidMessageNoValue
  | InvalidMessageCouldNotSerializeValue
  | ActualHashDidNotMatchKey (message : List Nat) (actual_hash : Multihash)
      (expected_hash : Multihash)
  | PreviousWasNull
  | ForkedFeed (previous_seq : Nat)
deriving DecidableEq

/-- Outcome of a validator call: Ok, a typed error, or a Rust panic. -/
inductive VRes where
  | ok
  | err (e : VErr)
  | panicked
deriving DecidableEq

/-- The external dependencies of the validator, as a record of functions:
the three decode entry points of the legacy JSON codec (strict value decode,
strict key-value decode, generic tree decode), the two serializers (the pretty
string serializer used by the length check, and the byte serializer toVec whose
second argument is the codec compact flag: the validators call it with the flag
false, the whitespace preserving form), and the SHA-256 digest. Decode and
serialize failures are None. -/
structure Deps where
  fromSliceValue : List Nat → Option SsbMessageValue
  fromSliceMessage : List Nat → Option SsbMessage
  fromSliceGeneric : List Nat → Option Value
  toStringPretty : SsbMessageValue → Option (List Nat)
  toVec : Value → Bool → Option (List Nat)
  sha256 : List Nat → List Nat

/-!
Regex matching.

is_correct_order (src/utils.rs) matches the byte pattern
"previous" [any]* ("author"|"sequence") [any]* ("author"|"sequence") [any]*
"timestamp" [any]* "hash" [any]* "content" [any]* "signature",
unanchored, where [any]* is any byte sequence. A chain of literal alternatives
separated by unconstrained gaps matches exactly when the input contains, in order,
one literal from each group; matchesFrom implements that existential semantics.
-/

/-- Scan the input for the earliest point where one of the alternative literals
can be consumed with the continuation succeeding on the remainder: at each
position either consume a literal here and run the continuation, or step one
element right. -/
def scanFor (alts : List (List Nat)) (cont : List Nat → Bool) : List Nat → Bool
  | [] => alts.any (fun p => p.isPrefixOf ([] : List Nat) && cont (List.drop p.length []))
  | c :: t =>
    (alts.any (fun p => p.isPrefixOf (c :: t) && cont (List.drop p.length (c :: t))))
      || scanFor alts cont t

/-- Existential matcher for a chain of literal alternatives separated by
unconstrained gaps, unanchored at both ends: each group in `pats` is a list of
alternative literals; the input matches when one literal of each group occurs in
the input, in group order, without overlap. -/
def matchesFrom : List (List (List Nat)) → List Nat → Bool
  | [], _ => true
  | alts :: rest, l => scanFor alts (matchesFrom rest) l

/-- Byte literal for the quoted key name previous. -/
def litPrevious : List Nat := litStr (r#""previous""#)

/-- Byte literal for the quoted key name author. -/
def litAuthor : List Nat := litStr (r#""author""#)

/-- Byte literal for the quoted key name sequence. -/
def litSequence : List Nat := litStr (r#""sequence""#)

/-- Byte literal for the quoted key name timestamp. -/
def litTimestamp : List Nat := litStr (r#""timestamp""#)

/-- Byte literal for the quoted key name hash. -/
def litHash : List Nat := litStr (r#""hash""#)

/-- Byte literal for the quoted key name content. -/
def litContent : List Nat := litStr (r#""content""#)

/-- Byte literal for the quoted key name signature. -/
def litSignature : List Nat := litStr (r#""signature""#)

/-- The literal groups of the field order regex of is_correct_order (src/utils.rs):
the second and the third group each allow either author or sequence. -/
def orderPats : List (List (List Nat)) :=
  [[litPrevious], [litAuthor, litSequence], [litAuthor, litSequence],
   [litTimestamp], [litHash], [litContent], [litSignature]]

/-- Model of is_correct_order (src/utils.rs): the field order byte regex. -/
def is_correct_order (bytes : List Nat) : Bool :=
  matchesFrom orderPats bytes

/-- Modelled from the spec: the field order pattern as the spec words it, with the
second and the third group being one of author and sequence and then the other
(never the same literal twice). Compare with is_correct_order. -/
def spec_correct_order (bytes : List Nat) : Bool :=
  matchesFrom [[litPrevious], [litAuthor], [litSequence],
               [litTimestamp], [litHash], [litContent], [litSignature]] bytes
    || matchesFrom [[litPrevious], [litSequence], [litAuthor],
                    [litTimestamp], [litHash], [litContent], [litSignature]] bytes

/-!
is_canonical_base64 (src/utils.rs) matches the anchored pattern
(zero or more 4 character base64 blocks) (optional canonical padding tail)
then the subpattern `.box.*` where the leading dot of box is the regex wildcard
(any character except newline, since the pattern is compiled without the
dot-matches-newline flag) and the trailing wildcard star likewise excludes newline,
ending at the end of the string.
-/

/-- Base64 alphabet character test of the pattern: a-z, A-Z, 0-9, slash, plus. -/
def isB64Byte (c : Nat) : Bool :=
  (97 ≤ c && c ≤ 122) || (65 ≤ c && c ≤ 90) || (48 ≤ c && c ≤ 57) || c == 47 || c == 43

/-- Character class [AQgw] of the two padding tail of the pattern. -/
def isAQgw (c : Nat) : Bool :=
  c == 65 || c == 81 || c == 103 || c == 119

/-- Character class [AEIMQUYcgkosw048] of the one padding tail of the pattern. -/
def isPad16 (c : Nat) : Bool :=
  c == 65 || c == 69 || c == 73 || c == 77 || c == 81 || c == 85 || c == 89 ||
  c == 99 || c == 103 || c == 107 || c == 111 || c == 115 || c == 119 ||
  c == 48 || c == 52 || c == 56

/-- Tail subpattern `.box.*$` of the is_canonical_base64 regex: one wildcard
character (any scalar except newline), the literal letters b o x, then any
characters except newline up to the end of the string. -/
def dotBoxTail (l : List Nat) : Bool :=
  match l with
  | c :: 98 :: 111 :: 120 :: rest => (c != 10) && rest.all (fun d => d != 10)
  | _ => false

/-- Optional canonical padding group of the pattern followed by the box tail:
either nothing, or one base64 character and [AQgw] and two equals signs, or two
base64 characters and [AEIMQUYcgkosw048] and one equals sign. -/
def optTailThenBox (l : List Nat) : Bool :=
  dotBoxTail l
    || (match l with
        | x :: y :: 61 :: 61 :: rest => isB64Byte x && isAQgw y && dotBoxTail rest
        | _ => false)
    || (match l with
        | x :: y :: z :: 61 :: rest =>
            isB64Byte x && isB64Byte y && isPad16 z && dotBoxTail rest
        | _ => false)

/-- Anchored matcher of the full is_canonical_base64 pattern: zero or more
4 character base64 blocks, then the optional padding group and the box tail.
The star is expanded existentially: stop here, or consume one block and recurse. -/
def canonMatch (l : List Nat) : Bool :=
  optTailThenBox l
    || (match l with
        | a :: b :: c :: d :: rest =>
            isB64Byte a && isB64Byte b && isB64Byte c && isB64Byte d && canonMatch rest
        | _ => false)

/-- Model of is_canonical_base64 (src/utils.rs) on the scalar values of the
content string. -/
def is_canonical_base64 (private_msg : List Nat) : Bool :=
  canonMatch private_msg

/-- Tail subpattern of the spec pattern, where the dot before box is the literal
dot character (scalar 46), not a wildcard. -/
def spec_dotBoxTail (l : List Nat) : Bool :=
  match l with
  | 46 :: 98 :: 111 :: 120 :: rest => rest.all (fun d => d != 10)
  | _ => false

/-- Optional padding group followed by the literal dot box tail of the spec pattern. -/
def spec_optTailThenBox (l : List Nat) : Bool :=
  spec_dotBoxTail l
    || (match l with
        | x :: y :: 61 :: 61 :: rest => isB64Byte x && isAQgw y && spec_dotBoxTail rest
        | _ => false)
    || (match l with
        | x :: y :: z :: 61 :: rest =>
            isB64Byte x && isB64Byte y && isPad16 z && spec_dotBoxTail rest
        | _ => false)

/-- Modelled from the spec: the canonical base64 box pattern as the spec words it,
with a literal dot before box. Compare with is_canonical_base64. -/
def spec_canonical_base64 (l : List Nat) : Bool :=
  spec_optTailThenBox l
    || (match l with
        | a :: b :: c :: d :: rest =>
            isB64Byte a && isB64Byte b && isB64Byte c && isB64Byte d &&
              spec_canonical_base64 rest
        | _ => false)

/-!
The hash pre-image transform (src/utils.rs).
multihash_from_bytes first recovers the string from the bytes (std str from_utf8,
whose unwrap panics on invalid UTF-8; modelled by an Option), then encodes the
string as UTF-16 code units and keeps the low byte of each unit
(node_buffer_binary_serializer), then takes the SHA-256 digest.
-/

/-- Continuation byte test for UTF-8 decoding: byte in the range 128 to 191. -/
def isCont (c : Nat) : Bool := 128 ≤ c && c < 192

/-- Decode one Unicode scalar from the front of a UTF-8 byte list, returning the
scalar and the remaining bytes, or None when the front is not well formed UTF-8
(overlong forms, surrogate scalars and out of range scalars rejected, matching the
std str from_utf8 validity rules). -/
def utf8Step : List Nat → Option (Nat × List Nat)
  | [] => none
  | b :: rest =>
    if b < 128 then some (b, rest)
    else if b < 192 then none
    else if b < 224 then
      match rest with
      | c1 :: rest1 =>
        if isCont c1 then
          if 128 ≤ (b - 192) * 64 + (c1 - 128) then
            some ((b - 192) * 64 + (c1 - 128), rest1)
          else none
        else none
      | [] => none
    else if b < 240 then
      match rest with
      | c1 :: c2 :: rest2 =>
        if isCont c1 && isCont c2 then
          if 2048 ≤ (b - 224) * 4096 + (c1 - 128) * 64 + (c2 - 128) &&
              !(55296 ≤ (b - 224) * 4096 + (c1 - 128) * 64 + (c2 - 128) &&
                (b - 224) * 4096 + (c1 - 128) * 64 + (c2 - 128) ≤ 57343) then
            some ((b - 224) * 4096 + (c1 - 128) * 64 + (c2 - 128), rest2)
          else none
        else none
      | _ => none
    else if b < 248 then
      match rest with
      | c1 :: c2 :: c3 :: rest3 =>
        if isCont c1 && isCont c2 && isCont c3 then
          if 65536 ≤ (b - 240) * 262144 + (c1 - 128) * 4096 + (c2 - 128) * 64 + (c3 - 128) &&
              (b - 240) * 262144 + (c1 - 128) * 4096 + (c2 - 128) * 64 + (c3 - 128) ≤ 1114111 then
            some ((b - 240) * 262144 + (c1 - 128) * 4096 + (c2 - 128) * 64 + (c3 - 128), rest3)
          else none
        else none
      | _ => none
    else none

/-- Number of bytes of the UTF-8 encoding of a scalar value. -/
def utf8SizeN (c : Nat) : Nat :=
  if c < 128 then 1 else if c < 2048 then 2 else if c < 65536 then 3 else 4

/-- Number of UTF-16 code units of a scalar value. -/
def utf16SizeN (c : Nat) : Nat :=
  if c < 65536 then 1 else 2

/-- The UTF-8 size is one for scalars below 128. -/
theorem utf8SizeN_one {c : Nat} (h : c < 128) : utf8SizeN c = 1 := by
  unfold utf8SizeN
  rw [if_pos h]

/-- The UTF-8 size is two for scalars from 128 up to 2047. -/
theorem utf8SizeN_two {c : Nat} (h1 : 128 ≤ c) (h2 : c < 2048) : utf8SizeN c = 2 := by
  unfold utf8SizeN
  rw [if_neg (by omega), if_pos h2]

/-- The UTF-8 size is three for scalars from 2048 up to 65535. -/
theorem utf8SizeN_three {c : Nat} (h1 : 2048 ≤ c) (h2 : c < 65536) : utf8SizeN c = 3 := by
  unfold utf8SizeN
  rw [if_neg (by omega), if_neg (by omega), if_pos h2]

/-- The UTF-8 size is four for scalars from 65536 on. -/
theorem utf8SizeN_four {c : Nat} (h1 : 65536 ≤ c) : utf8SizeN c = 4 := by
  unfold utf8SizeN
  rw [if_neg (by omega), if_neg (by omega), if_neg (by omega)]

/-- One UTF-8 step consumes exactly the UTF-8 size of the scalar it produces. -/
theorem utf8Step_size {l : List Nat} {c : Nat} {rest : List Nat}
    (h : utf8Step l = some (c, rest)) : utf8SizeN c + rest.length = l.length := by
  match l with
  | [] => simp [utf8Step] at h
  | b :: r =>
    unfold utf8Step at h
    by_cases h1 : b < 128
    · simp [h1] at h
      obtain ⟨hc, hr⟩ := h
      subst hc; subst hr
      rw [utf8SizeN_one h1]
      simp
      omega
    · by_cases h2 : b < 192
      · simp [h1, h2] at h
      · by_cases h3 : b < 224
        · simp [h1, h2, h3] at h
          match r with
          | [] => simp at h
          | c1 :: rest1 =>
            simp [isCont] at h
            obtain ⟨⟨hca, hcb⟩, hlo, hc, hr⟩ := h
            subst hc; subst hr
            rw [utf8SizeN_two (by omega) (by omega)]
            simp
            omega
        · by_cases h4 : b < 240
          · simp [h1, h2, h3, h4] at h
            match r with
            | [] => simp at h
            | [c1] => simp at h
            | c1 :: c2 :: rest2 =>
              simp [isCont] at h
              obtain ⟨⟨⟨h1a, h1b⟩, h2a, h2b⟩, ⟨hlo, hsur⟩, hc, hr⟩ := h
              subst hc; subst hr
              rw [utf8SizeN_three (by omega) (by omega)]
              simp
              omega
          · by_cases h5 : b < 248
            · simp [h1, h2, h3, h4, h5] at h
              match r with
              | [] => simp at h
              | [c1] => simp at h
              | [c1, c2] => simp at h
              | c1 :: c2 :: c3 :: rest3 =>
                simp [isCont] at h
                obtain ⟨⟨⟨⟨h1a, h1b⟩, h2a, h2b⟩, h3a, h3b⟩, ⟨hlo, hhi⟩, hc, hr⟩ := h
                subst hc; subst hr
                rw [utf8SizeN_four (by omega)]
                simp
                omega
            · simp [h1, h2, h3, h4, h5] at h

/-- One UTF-8 step strictly shrinks the byte list. -/
theorem utf8Step_length_lt {l : List Nat} {c : Nat} {rest : List Nat}
    (h : utf8Step l = some (c, rest)) : rest.length < l.length := by
  have hsz := utf8Step_size h
  have hone : 1 ≤ utf8SizeN c := by
    unfold utf8SizeN
    split
    · omega
    · split
      · omega
      · split <;> omega
  omega

/-- Decode a whole byte list as UTF-8 into its scalar values, or None on any
ill formed content (the model of std str from_utf8), with explicit fuel so the
recursion is structural. -/
def utf8DecodeFuel : Nat → List Nat → Option (List Nat)
  | _, [] => some []
  | 0, _ :: _ => none
  | fuel + 1, a :: r =>
    match utf8Step (a :: r) with
    | none => none
    | some (c, rest) => (utf8DecodeFuel fuel rest).map (fun t => c :: t)

/-- Decode entry point: the fuel of the structural recursion is the input length,
which always suffices because every step consumes at least one byte. -/
def utf8Decode (l : List Nat) : Option (List Nat) :=
  utf8DecodeFuel l.length l

/-- Encode a list of scalar values as UTF-16 code units (surrogate pairs for
scalars above the basic plane), matching the Rust encode_utf16 iterator. -/
def utf16Encode : List Nat → List Nat
  | [] => []
  | c :: t =>
    (if c < 65536 then [c]
     else [55296 + (c - 65536) / 1024, 56320 + (c - 65536) % 1024]) ++ utf16Encode t

/-- Model of node_buffer_binary_serializer (src/utils.rs): encode the text as
UTF-16 code units and keep the low byte of each unit. -/
def node_buffer_binary_serializer (text : List Nat) : List Nat :=
  (utf16Encode text).map (fun word => word % 256)

/-- Model of multihash_from_bytes (src/utils.rs), parameterized by the SHA-256
digest function: recover the string from the bytes (None models the unwrap panic
on invalid UTF-8), apply the UTF-16 low byte transform, digest, and wrap as a
message multihash. -/
def multihash_from_bytes (sha : List Nat → List Nat) (bytes : List Nat) :
    Option Multihash :=
  (utf8Decode bytes).map
    (fun text => Multihash.Message (sha (node_buffer_binary_serializer text)))

/-!
Structural and chain checks (src/utils.rs and src/message_value.rs).
-/

/-- The literal string sha256 the hash field is compared against. -/
def sha256Lit : List Nat := litStr (r"sha256")

/-- UTF-16 length of a string in code units: the sum over all scalars of the
string of the number of UTF-16 code units of the scalar, exactly the
chars map len_utf16 sum computation of is_correct_length. -/
def utf16Len (s : List Nat) : Nat :=
  (s.map utf16SizeN).sum

/-- Model of is_correct_length (src/utils.rs): serialize the message value as a
JSON string with compact set to false (whitespace preserving pretty form), and
test that the UTF-16 length is not above 8192. None models the serialization
failure, which the caller turns into InvalidMessageCouldNotSerializeValue. -/
def is_correct_length (D : Deps) (msg_value : SsbMessageValue) : Option Bool :=
  match D.toStringPretty msg_value with
  | none => none
  | some msg_value_str => some (if utf16Len msg_value_str > 8192 then false else true)

/-- Sequencing of check results, mirroring the question mark operator: keep the
first non Ok outcome. -/
def andThen (a b : VRes) : VRes :=
  match a with
  | VRes.ok => b
  | e => e

/-- The private content check of message_value_common_checks: when the content
value is a string it must be canonical base64, otherwise InvalidBase64. -/
def base64_check (message_value : SsbMessageValue) (message_bytes : List Nat) : VRes :=
  match message_value.content.inner with
  | Value.string private_msg =>
    if is_canonical_base64 private_msg then VRes.ok
    else VRes.err (VErr.InvalidBase64 message_bytes)
  | _ => VRes.ok

/-- The previous message block of message_value_common_checks: with a predecessor,
author equality, sequence increment, previous not null, and the fork check against
the previous key (whose absence is the expect panic of the source); without a
predecessor, the first message rules. Skipped entirely when check_previous is false. -/
def previous_checks (message_value : SsbMessageValue)
    (previous_value : Option SsbMessageValue) (message_bytes : List Nat)
    (previous_key : Option Multihash) (check_previous : Bool) : VRes :=
  if check_previous then
    match previous_value with
    | some pv =>
      if message_value.author ≠ pv.author then
        VRes.err (VErr.AuthorsDidNotMatch pv.author message_value.author)
      else if message_value.sequence ≠ pv.sequence + 1 then
        VRes.err (VErr.InvalidSequenceNumber message_bytes message_value.sequence
          (pv.sequence + 1))
      else
        match message_value.previous with
        | none => VRes.err VErr.PreviousWasNull
        | some prev =>
          match previous_key with
          | none => VRes.panicked
          | some pk =>
            if prev ≠ pk then VRes.err (VErr.ForkedFeed pv.sequence) else VRes.ok
    | none =>
      if message_value.sequence ≠ 1 then
        VRes.err (VErr.FirstMessageDidNotHaveSequenceOfOne message_bytes)
      else if message_value.previous ≠ none then
        VRes.err (VErr.FirstMessageDidNotHavePreviousOfNull message_bytes)
      else VRes.ok
  else VRes.ok

/-- The closing length check of message_value_common_checks: serialization failure
becomes InvalidMessageCouldNotSerializeValue, an over long value becomes
InvalidMessageValueLength. -/
def length_check (D : Deps) (message_value : SsbMessageValue)
    (message_bytes : List Nat) : VRes :=
  match is_correct_length D message_value with
  | none => VRes.err VErr.InvalidMessageCouldNotSerializeValue
  | some false => VRes.err (VErr.InvalidMessageValueLength message_bytes)
  | some true => VRes.ok

/-- Model of message_value_common_checks (src/message_value.rs), in source order:
field order on the raw bytes, hash function literal, canonical base64 for string
content, the previous message block, and the length bound last. -/
def message_value_common_checks (D : Deps) (message_value : SsbMessageValue)
    (previous_value : Option SsbMessageValue) (message_bytes : List Nat)
    (previous_key : Option Multihash) (check_previous : Bool) : VRes :=
  if ¬ is_correct_order message_bytes then
    VRes.err (VErr.InvalidMessageValueOrder message_bytes)
  else if message_value.hash ≠ sha256Lit then
    VRes.err (VErr.InvalidHashFunction message_bytes)
  else
    andThen (base64_check message_value message_bytes)
      (andThen
        (previous_checks message_value previous_value message_bytes previous_key
          check_previous)
        (length_check D message_value message_bytes))

/-!
The validators (src/message_value.rs and src/message.rs).
-/

/-- Model of validate_message_value_hash_chain (src/message_value.rs): decode the
optional predecessor (its key recomputed by hashing its raw bytes), decode the
message, and run the common checks with the previous block enabled. -/
def validate_message_value_hash_chain (D : Deps) (message_bytes : List Nat)
    (previous_msg_bytes : Option (List Nat)) : VRes :=
  match previous_msg_bytes with
  | some message =>
    match D.fromSliceValue message with
    | none => VRes.err (VErr.InvalidPreviousMessage message)
    | some previous =>
      match multihash_from_bytes D.sha256 message with
      | none => VRes.panicked
      | some previous_key =>
        match D.fromSliceValue message_bytes with
        | none => VRes.err (VErr.InvalidMessage message_bytes)
        | some message_value =>
          message_value_common_checks D message_value (some previous) message_bytes
            (some previous_key) true
  | none =>
    match D.fromSliceValue message_bytes with
    | none => VRes.err (VErr.InvalidMessage message_bytes)
    | some message_value =>
      message_value_common_checks D message_value none message_bytes none true

/-- Model of validate_message_value (src/message_value.rs): decode and run the
common checks without the previous block. -/
def validate_message_value (D : Deps) (message_bytes : List Nat) : VRes :=
  match D.fromSliceValue message_bytes with
  | none => VRes.err (VErr.InvalidMessage message_bytes)
  | some message_value =>
    message_value_common_checks D message_value none message_bytes none false

/-- Model of validate_ooo_message_value_hash_chain (src/message_value.rs): decode
the optional predecessor, decode the message, run the common checks without the
previous block, then enforce only author equality against the predecessor. -/
def validate_ooo_message_value_hash_chain (D : Deps) (message_bytes : List Nat)
    (previous_msg_bytes : Option (List Nat)) : VRes :=
  match previous_msg_bytes with
  | some message =>
    match D.fromSliceValue message with
    | none => VRes.err (VErr.InvalidPreviousMessage message)
    | some previous =>
      match D.fromSliceValue message_bytes with
      | none => VRes.err (VErr.InvalidMessage message_bytes)
      | some message_value =>
        andThen (message_value_common_checks D message_value none message_bytes none false)
          (if message_value.author ≠ previous.author then
            VRes.err (VErr.AuthorsDidNotMatch previous.author message_value.author)
          else VRes.ok)
  | none =>
    match D.fromSliceValue message_bytes with
    | none => VRes.err (VErr.InvalidMessage message_bytes)
    | some message_value =>
      message_value_common_checks D message_value none message_bytes none false

/-- Byte literal for the unquoted key name value, used for the generic tree lookup. -/
def litValueKey : List Nat := litStr (r"value")

/-- The hash recomputation block shared verbatim by the three key-value
validators of src/message.rs: reparse the message bytes as a generic tree, take
the value subtree (a non object root is the explicit panic branch of the source,
a missing value key is InvalidMessageNoValue), serialize the subtree with the
compact flag false (the whitespace preserving form, mirroring the source call
to_vec with false), recompute the multihash over it and compare with the
claimed key. -/
def hash_check_tail (D : Deps) (message_bytes : List Nat) (key : Multihash) : VRes :=
  match D.fromSliceGeneric message_bytes with
  | none => VRes.err (VErr.InvalidMessage message_bytes)
  | some verifiable_msg =>
    match verifiable_msg with
    | Value.object o =>
      match o.lookup litValueKey with
      | none => VRes.err VErr.InvalidMessageNoValue
      | some verifiable_msg_value =>
        match D.toVec verifiable_msg_value false with
        | none => VRes.err VErr.InvalidMessageCouldNotSerializeValue
        | some value_bytes =>
          match multihash_from_bytes D.sha256 value_bytes with
          | none => VRes.panicked
          | some message_actual_multihash =>
            if message_actual_multihash = key then VRes.ok
            else
              VRes.err (VErr.ActualHashDidNotMatchKey message_bytes
                message_actual_multihash key)
    | _ => VRes.panicked

/-- Model of validate_multi_author_message_hash_chain (src/message.rs): strict
decode of the key-value message, common checks without the previous block, then
the hash recomputation block. -/
def validate_multi_author_message_hash_chain (D : Deps) (message_bytes : List Nat) :
    VRes :=
  match D.fromSliceMessage message_bytes with
  | none => VRes.err (VErr.InvalidMessage message_bytes)
  | some message =>
    andThen
      (message_value_common_checks D message.value none message_bytes none false)
      (hash_check_tail D message_bytes message.key)

/-- Model of validate_ooo_message_hash_chain (src/message.rs): decode the optional
predecessor as a key-value message (only its value is used further: the key is
bound and discarded), strict decode of the message, common checks without the
previous block, author equality against the predecessor when present, then the
hash recomputation block. -/
def validate_ooo_message_hash_chain (D : Deps) (message_bytes : List Nat)
    (previous_msg_bytes : Option (List Nat)) : VRes :=
  match previous_msg_bytes with
  | some message =>
    match D.fromSliceMessage message with
    | none => VRes.err (VErr.InvalidPreviousMessage message)
    | some previous =>
      match D.fromSliceMessage message_bytes with
      | none => VRes.err (VErr.InvalidMessage message_bytes)
      | some msg =>
        andThen
          (message_value_common_checks D msg.value none message_bytes none false)
          (andThen
            (if msg.value.author ≠ previous.value.author then
              VRes.err (VErr.AuthorsDidNotMatch previous.value.author msg.value.author)
            else VRes.ok)
            (hash_check_tail D message_bytes msg.key))
  | none =>
    match D.fromSliceMessage message_bytes with
    | none => VRes.err (VErr.InvalidMessage message_bytes)
    | some msg =>
      andThen
        (message_value_common_checks D msg.value none message_bytes none false)
        (hash_check_tail D message_bytes msg.key)

/-- Model of validate_message_hash_chain (src/message.rs): decode the optional
predecessor as a key-value message keeping its value and its key field (the key
is read, not recomputed), strict decode of the message, the common checks with
the previous block enabled, then the hash recomputation block. -/
def validate_message_hash_chain (D : Deps) (message_bytes : List Nat)
    (previous_msg_bytes : Option (List Nat)) : VRes :=
  match previous_msg_bytes with
  | some message =>
    match D.fromSliceMessage message with
    | none => VRes.err (VErr.InvalidPreviousMessage message)
    | some previous =>
      match D.fromSliceMessage message_bytes with
      | none => VRes.err (VErr.InvalidMessage message_bytes)
      | some msg =>
        andThen
          (message_value_common_checks D msg.value (some previous.value) message_bytes
            (some previous.key) true)
          (hash_check_tail D message_bytes msg.key)
  | none =>
    match D.fromSliceMessage message_bytes with
    | none => VRes.err (VErr.InvalidMessage message_bytes)
    | some msg =>
      andThen
        (message_value_common_checks D msg.value none message_bytes none true)
        (hash_check_tail D message_bytes msg.key)

/-!
Batch drivers (src/message.rs and src/message_value.rs).
par_validate_message_hash_chain_of_feed and
par_validate_message_value_hash_chain_of_feed enumerate the slice and validate
entry i against entry i-1, or against the optional external predecessor at
entry 0. The rayon try_fold and try_reduce pipeline produces Ok exactly when
every entry validates; it is modelled by a short circuiting fold in slice order.
-/

/-- Short circuiting fold of a pairwise validator over a slice: each entry is
validated against the entry before it, the first against the supplied optional
predecessor. -/
def chainFold (f : List Nat → Option (List Nat) → VRes) :
    Option (List Nat) → List (List Nat) → VRes
  | _, [] => VRes.ok
  | prev, m :: rest =>
    match f m prev with
    | VRes.ok => chainFold f (some m) rest
    | e => e

/-- Model of par_validate_message_hash_chain_of_feed (src/message.rs). -/
def par_validate_message_hash_chain_of_feed (D : Deps) (messages : List (List Nat))
    (previous : Option (List Nat)) : VRes :=
  chainFold (validate_message_hash_chain D) previous messages

/-- Model of par_validate_message_value_hash_chain_of_feed (src/message_value.rs). -/
def par_validate_message_value_hash_chain_of_feed (D : Deps)
    (messages : List (List Nat)) (previous : Option (List Nat)) : VRes :=
  chainFold (validate_message_value_hash_chain D) previous messages

/-!
Concrete fixtures: a tiny feed with a concrete dependency record, used by the
witness and counterexample theorems. The message texts are ASCII and contain the
seven quoted key names in schema order, so the field order regex accepts them;
decoding, serialization and hashing behaviour is supplied by the record testDeps
below (the digest is the identity function, so over ASCII text the recomputed
multihash of a byte list is just Message of that list).
-/

/-- Raw bytes of the first message value of the fixture feed. -/
def bytes1 : List Nat :=
  litStr (r#" "previous" null "author" "A" "sequence" 1 "timestamp" 0 "hash" "sha256" "content" c "signature" "S1" "#)

/-- Raw bytes of the first message value with a single mutated byte inside the
signature text (the final text character 1 becomes z). -/
def bytes1m : List Nat :=
  litStr (r#" "previous" null "author" "A" "sequence" 1 "timestamp" 0 "hash" "sha256" "content" c "signature" "Sz" "#)

/-- Raw bytes of the second message value of the fixture feed. -/
def bytes2 : List Nat :=
  litStr (r#" "previous" P1 "author" "A" "sequence" 2 "timestamp" 0 "hash" "sha256" "content" c "signature" "S2" "#)

/-- The recomputed key of the first message value in value only mode: the identity
digest of the UTF-16 low byte transform of the ASCII text is the text itself. -/
def K1val : Multihash := Multihash.Message bytes1

/-- Decoded form of bytes1. -/
def mv1 : SsbMessageValue :=
  { previous := none, author := litStr (r"A"), sequence := 1, timestamp := ⟨0⟩,
    hash := sha256Lit, content := ⟨Value.object []⟩, signature := litStr (r"S1") }

/-- Decoded form of bytes1m: identical except for the signature text. -/
def mv1m : SsbMessageValue :=
  { previous := none, author := litStr (r"A"), sequence := 1, timestamp := ⟨0⟩,
    hash := sha256Lit, content := ⟨Value.object []⟩, signature := litStr (r"Sz") }

/-- Decoded form of bytes2; its previous field carries the recomputed key of bytes1. -/
def mv2 : SsbMessageValue :=
  { previous := some K1val, author := litStr (r"A"), sequence := 2, timestamp := ⟨0⟩,
    hash := sha256Lit, content := ⟨Value.object []⟩, signature := litStr (r"S2") }

/-- Raw bytes of the first key-value message of the fixture feed. -/
def kbytes1 : List Nat :=
  litStr (r#" "key" "K1" "value" "previous" null "author" "A" "sequence" 1 "timestamp" 0 "hash" "sha256" "content" c "signature" "S1" "#)

/-- Raw bytes of the first key-value message with a single mutated byte inside the
value part (the signature text character 1 becomes z); the key field is untouched. -/
def kbytes1m : List Nat :=
  litStr (r#" "key" "K1" "value" "previous" null "author" "A" "sequence" 1 "timestamp" 0 "hash" "sha256" "content" c "signature" "Sz" "#)

/-- Raw bytes of the second key-value message of the fixture feed. -/
def kbytes2 : List Nat :=
  litStr (r#" "key" "K2" "value" "previous" K1 "author" "A" "sequence" 2 "timestamp" 0 "hash" "sha256" "content" c "signature" "S2" "#)

/-- Compact serialization of the value subtree of kbytes1 (a fixture token). -/
def vb1 : List Nat := litStr (r"V1")

/-- Compact serialization of the value subtree of kbytes1m: the mutation changes
the value subtree, so its serialization differs from vb1. -/
def vb1m : List Nat := litStr (r"Vm")

/-- Compact serialization of the value subtree of kbytes2 (a fixture token). -/
def vb2 : List Nat := litStr (r"V2")

/-- Claimed key of the first key-value message: the recomputed multihash of vb1
under the identity digest. -/
def K1k : Multihash := Multihash.Message vb1

/-- Claimed key of the second key-value message. -/
def K2k : Multihash := Multihash.Message vb2

/-- Decoded value of kbytes1. -/
def kmv1 : SsbMessageValue :=
  { previous := none, author := litStr (r"A"), sequence := 1, timestamp := ⟨0⟩,
    hash := sha256Lit, content := ⟨Value.object []⟩, signature := litStr (r"S1") }

/-- Decoded value of kbytes1m: identical except for the signature text. -/
def kmv1m : SsbMessageValue :=
  { previous := none, author := litStr (r"A"), sequence := 1, timestamp := ⟨0⟩,
    hash := sha256Lit, content := ⟨Value.object []⟩, signature := litStr (r"Sz") }

/-- Decoded value of kbytes2; its previous field carries the key field of kbytes1. -/
def kmv2 : SsbMessageValue :=
  { previous := some K1k, author := litStr (r"A"), sequence := 2, timestamp := ⟨0⟩,
    hash := sha256Lit, content := ⟨Value.object []⟩, signature := litStr (r"S2") }

/-- Decoded form of kbytes1. -/
def km1 : SsbMessage := { key := K1k, value := kmv1 }

/-- Decoded form of kbytes1m: the mutation is inside the value, the key field is
unchanged. -/
def km1m : SsbMessage := { key := K1k, value := kmv1m }

/-- Decoded form of kbytes2. -/
def km2 : SsbMessage := { key := K2k, value := kmv2 }

/-- The concrete dependency record of the fixtures: the decoders recognize the
fixture byte lists, the pretty serializer returns a one character string, the
byte serializer ignores the compact flag and extracts string payloads, and the
digest is the identity. -/
def testDeps : Deps :=
  { fromSliceValue := fun b =>
      if b = bytes1 then some mv1
      else if b = bytes1m then some mv1m
      else if b = bytes2 then some mv2
      else none,
    fromSliceMessage := fun b =>
      if b = kbytes1 then some km1
      else if b = kbytes1m then some km1m
      else if b = kbytes2 then some km2
      else none,
    fromSliceGeneric := fun b =>
      if b = kbytes1 then some (Value.object [(litValueKey, Value.string vb1)])
      else if b = kbytes1m then some (Value.object [(litValueKey, Value.string vb1m)])
      else if b = kbytes2 then some (Value.object [(litValueKey, Value.string vb2)])
      else none,
    toStringPretty := fun _ => some (litStr (r"v")),
    toVec := fun v _ =>
      match v with
      | Value.string l => some l
      | _ => none,
    sha256 := fun b => b }

/-- Single byte mutation test: equal lengths and exactly one differing position. -/
def differInOneByte (a b : List Nat) : Bool :=
  (a.length == b.length) && ((List.zip a b).countP (fun p => p.1 != p.2) == 1)

/-!
Helper lemmas about the check combinators.
-/

/-- Sequencing yields Ok exactly when both parts do. -/
theorem andThen_ok_iff {a b : VRes} : andThen a b = VRes.ok ↔ a = VRes.ok ∧ b = VRes.ok := by
  cases a <;> simp [andThen]

/-- Sequencing of two non panicking results does not panic. -/
theorem andThen_ne_panic {a b : VRes} (ha : a ≠ VRes.panicked) (hb : b ≠ VRes.panicked) :
    andThen a b ≠ VRes.panicked := by
  cases a <;> simp_all [andThen]

/-- The previous message block never reports InvalidBase64. -/
theorem previous_checks_ne_base64 (mv : SsbMessageValue) (pv : Option SsbMessageValue)
    (bytes : List Nat) (pk : Option Multihash) (cp : Bool) (b : List Nat) :
    previous_checks mv pv bytes pk cp ≠ VRes.err (VErr.InvalidBase64 b) := by
  unfold previous_checks
  split
  · split
    · split
      · simp
      · split
        · simp
        · split
          · simp
          · split
            · simp
            · split <;> simp
    · split
      · simp
      · split <;> simp
  · simp

/-- The length block never reports InvalidBase64. -/
theorem length_check_ne_base64 (D : Deps) (mv : SsbMessageValue) (bytes : List Nat)
    (b : List Nat) : length_check D mv bytes ≠ VRes.err (VErr.InvalidBase64 b) := by
  unfold length_check
  split <;> simp

/-- The private content block never reports InvalidMessageValueOrder. -/
theorem base64_check_ne_order (mv : SsbMessageValue) (bytes : List Nat) (b : List Nat) :
    base64_check mv bytes ≠ VRes.err (VErr.InvalidMessageValueOrder b) := by
  unfold base64_check
  split
  · split <;> simp
  · simp

/-- The previous message block never reports InvalidMessageValueOrder. -/
theorem previous_checks_ne_order (mv : SsbMessageValue) (pv : Option SsbMessageValue)
    (bytes : List Nat) (pk : Option Multihash) (cp : Bool) (b : List Nat) :
    previous_checks mv pv bytes pk cp ≠ VRes.err (VErr.InvalidMessageValueOrder b) := by
  unfold previous_checks
  split
  · split
    · split
      · simp
      · split
        · simp
        · split
          · simp
          · split
            · simp
            · split <;> simp
    · split
      · simp
      · split <;> simp
  · simp

/-- The length block never reports InvalidMessageValueOrder. -/
theorem length_check_ne_order (D : Deps) (mv : SsbMessageValue) (bytes : List Nat)
    (b : List Nat) : length_check D mv bytes ≠ VRes.err (VErr.InvalidMessageValueOrder b) := by
  unfold length_check
  split <;> simp

/-- Reduction of the previous message block at an explicit predecessor and key. -/
theorem previous_checks_some_true (mv pv : SsbMessageValue) (bytes : List Nat)
    (k : Multihash) :
    previous_checks mv (some pv) bytes (some k) true =
      (if mv.author ≠ pv.author then VRes.err (VErr.AuthorsDidNotMatch pv.author mv.author)
       else if mv.sequence ≠ pv.sequence + 1 then
         VRes.err (VErr.InvalidSequenceNumber bytes mv.sequence (pv.sequence + 1))
       else
         match mv.previous with
         | none => VRes.err VErr.PreviousWasNull
         | some prev =>
           if prev ≠ k then VRes.err (VErr.ForkedFeed pv.sequence) else VRes.ok) := rfl

/-- Reduction of the common checks past the order and hash function checks. -/
theorem common_checks_unfold (D : Deps) (mv : SsbMessageValue)
    (pv : Option SsbMessageValue) (bytes : List Nat) (pk : Option Multihash) (cp : Bool)
    (horder : is_correct_order bytes = true) (hhash : mv.hash = sha256Lit) :
    message_value_common_checks D mv pv bytes pk cp =
      andThen (base64_check mv bytes)
        (andThen (previous_checks mv pv bytes pk cp) (length_check D mv bytes)) := by
  unfold message_value_common_checks
  rw [if_neg (by simp [horder]), if_neg (by simp [hhash])]

/-- Inversion of a successful run of the common checks with a predecessor: every
individual check passed, and the previous field equals the supplied previous key. -/
theorem common_checks_ok_inv {D : Deps} {mv pv : SsbMessageValue} {bytes : List Nat}
    {k : Multihash}
    (h : message_value_common_checks D mv (some pv) bytes (some k) true = VRes.ok) :
    is_correct_order bytes = true ∧ mv.hash = sha256Lit ∧
      base64_check mv bytes = VRes.ok ∧ mv.author = pv.author ∧
      mv.sequence = pv.sequence + 1 ∧ mv.previous = some k ∧
      length_check D mv bytes = VRes.ok := by
  by_cases horder : is_correct_order bytes
  · by_cases hhash : mv.hash = sha256Lit
    · rw [common_checks_unfold D mv (some pv) bytes (some k) true horder hhash,
        andThen_ok_iff, andThen_ok_iff] at h
      obtain ⟨hb64, hprevchk, hlen⟩ := h
      rw [previous_checks_some_true] at hprevchk
      by_cases hauthor : mv.author = pv.author
      · rw [if_neg (by simp [hauthor])] at hprevchk
        by_cases hseq : mv.sequence = pv.sequence + 1
        · rw [if_neg (by simp [hseq])] at hprevchk
          match hp : mv.previous with
          | none => rw [hp] at hprevchk; simp at hprevchk
          | some p0 =>
            rw [hp] at hprevchk
            by_cases hne : p0 = k
            · subst hne
              exact ⟨horder, hhash, hb64, hauthor, hseq, rfl, hlen⟩
            · simp [hne] at hprevchk
        · rw [if_pos (by simp [hseq])] at hprevchk
          exact absurd hprevchk (by simp)
      · rw [if_pos (by simp [hauthor])] at hprevchk
        exact absurd hprevchk (by simp)
    · unfold message_value_common_checks at h
      rw [if_neg (by simp [horder]), if_pos (by simp [hhash])] at h
      exact absurd h (by simp)
  · unfold message_value_common_checks at h
    rw [if_pos (by simp [horder])] at h
    exact absurd h (by simp)

/-- Introduction of a successful run of the common checks with a predecessor. -/
theorem common_checks_ok_intro {D : Deps} {mv pv : SsbMessageValue} {bytes : List Nat}
    {k : Multihash} (horder : is_correct_order bytes = true) (hhash : mv.hash = sha256Lit)
    (hb64 : base64_check mv bytes = VRes.ok) (hauthor : mv.author = pv.author)
    (hseq : mv.sequence = pv.sequence + 1) (hprev : mv.previous = some k)
    (hlen : length_check D mv bytes = VRes.ok) :
    message_value_common_checks D mv (some pv) bytes (some k) true = VRes.ok := by
  rw [common_checks_unfold D mv (some pv) bytes (some k) true horder hhash, hb64,
    previous_checks_some_true, if_neg (by simp [hauthor]), if_neg (by simp [hseq]), hprev]
  simp [andThen, hlen]

/-- When every earlier check passes but the previous field disagrees with the
previous key, the common checks report a forked feed at the predecessor sequence. -/
theorem common_checks_forked {D : Deps} {mv pv : SsbMessageValue} {bytes : List Nat}
    {k : Multihash} {p0 : Multihash} (horder : is_correct_order bytes = true)
    (hhash : mv.hash = sha256Lit) (hb64 : base64_check mv bytes = VRes.ok)
    (hauthor : mv.author = pv.author) (hseq : mv.sequence = pv.sequence + 1)
    (hprev : mv.previous = some p0) (hne : p0 ≠ k) :
    message_value_common_checks D mv (some pv) bytes (some k) true =
      VRes.err (VErr.ForkedFeed pv.sequence) := by
  rw [common_checks_unfold D mv (some pv) bytes (some k) true horder hhash, hb64,
    previous_checks_some_true, if_neg (by simp [hauthor]), if_neg (by simp [hseq]), hprev]
  simp [andThen, hne]

/-- The predecessor fed to the batch worker at index i: the external predecessor
at index 0, otherwise the slice entry just before i. -/
def prevAt (previous : Option (List Nat)) (messages : List (List Nat)) (i : Nat) :
    Option (List Nat) :=
  if i = 0 then previous else some (messages.getD (i - 1) [])

/-- The short circuiting pairwise fold returns Ok exactly when every indexed
worker call returns Ok. -/
theorem chainFold_ok_iff (f : List Nat → Option (List Nat) → VRes) :
    ∀ (messages : List (List Nat)) (previous : Option (List Nat)),
      chainFold f previous messages = VRes.ok ↔
        ∀ i, i < messages.length →
          f (messages.getD i []) (prevAt previous messages i) = VRes.ok := by
  intro messages
  induction messages with
  | nil => intro previous; simp [chainFold]
  | cons m rest ih =>
    intro previous
    constructor
    · intro h i hi
      unfold chainFold at h
      match hf : f m previous with
      | VRes.ok =>
        rw [hf] at h
        match i with
        | 0 => simpa [prevAt]
        | j + 1 =>
          have hr := (ih (some m)).mp h j (by simpa using hi)
          simp only [List.getD_cons_succ]
          have : prevAt previous (m :: rest) (j + 1) = prevAt (some m) rest j := by
            unfold prevAt
            match j with
            | 0 => simp
            | j2 + 1 => simp
          rw [this]
          exact hr
      | VRes.err e => rw [hf] at h; exact absurd h (by simp)
      | VRes.panicked => rw [hf] at h; exact absurd h (by simp)
    · intro h
      unfold chainFold
      have h0 := h 0 (by simp)
      simp [prevAt] at h0
      rw [h0]
      refine (ih (some m)).mpr ?_
      intro j hj
      have hr := h (j + 1) (by simpa using hj)
      simp only [List.getD_cons_succ] at hr
      have : prevAt previous (m :: rest) (j + 1) = prevAt (some m) rest j := by
        unfold prevAt
        match j with
        | 0 => simp
        | j2 + 1 => simp
      rw [this] at hr
      exact hr

/-- Existential reading of the chain of literal groups: for each group in turn,
some alternative of the group occurs after an arbitrary gap, and the rest of the
chain matches the remainder. -/
def ExistsDecomp : List (List (List Nat)) → List Nat → Prop
  | [], _ => True
  | alts :: rest, l => ∃ g p l2, p ∈ alts ∧ l = g ++ p ++ l2 ∧ ExistsDecomp rest l2

/-- The scanning step succeeds exactly when the input splits into a gap, an
alternative of the group, and a remainder accepted by the continuation. -/
theorem scanFor_iff (alts : List (List Nat)) (cont : List Nat → Bool) :
    ∀ l, scanFor alts cont l = true ↔
      ∃ g p l2, p ∈ alts ∧ l = g ++ p ++ l2 ∧ cont l2 = true := by
  intro l
  induction l with
  | nil =>
    simp only [scanFor, List.any_eq_true, Bool.and_eq_true]
    constructor
    · rintro ⟨p, hp, hpre, hcont⟩
      have hpnil : p = [] := by
        have := List.isPrefixOf_iff_prefix.mp hpre
        simpa using this
      subst hpnil
      exact ⟨[], [], [], hp, rfl, by simpa using hcont⟩
    · rintro ⟨g, p, l2, hp, heq, hcont⟩
      have hg : g = [] ∧ p = [] ∧ l2 = [] := by
        constructor
        · cases g with
          | nil => rfl
          | cons a t => simp at heq
        · cases g with
          | nil =>
            simp at heq
            obtain ⟨h1, h2⟩ := heq
            exact ⟨h1, h2⟩
          | cons a t => simp at heq
      obtain ⟨hg1, hp1, hl1⟩ := hg
      subst hg1; subst hp1; subst hl1
      exact ⟨[], hp, by simp, by simpa using hcont⟩
  | cons c t ih =>
    simp only [scanFor, Bool.or_eq_true, List.any_eq_true, Bool.and_eq_true]
    constructor
    · rintro (⟨p, hp, hpre, hcont⟩ | htail)
      · obtain ⟨l2, hl2⟩ := List.isPrefixOf_iff_prefix.mp hpre
        refine ⟨[], p, l2, hp, by simpa using hl2.symm, ?_⟩
        have : List.drop p.length (c :: t) = l2 := by
          rw [← hl2]
          exact List.drop_left p l2
        rwa [this] at hcont
      · obtain ⟨g, p, l2, hp, heq, hcont⟩ := ih.mp htail
        exact ⟨c :: g, p, l2, hp, by simp [heq], hcont⟩
    · rintro ⟨g, p, l2, hp, heq, hcont⟩
      cases g with
      | nil =>
        left
        refine ⟨p, hp, ?_, ?_⟩
        · exact List.isPrefixOf_iff_prefix.mpr ⟨l2, by simpa using heq.symm⟩
        · have : List.drop p.length (c :: t) = l2 := by
            simp only [List.nil_append] at heq
            rw [heq]
            exact List.drop_left p l2
          rwa [this]
      | cons a g2 =>
        right
        refine ih.mpr ⟨g2, p, l2, hp, ?_, hcont⟩
        simpa using congrArg List.tail heq

/-- The matcher accepts exactly the inputs with an existential decomposition. -/
theorem matchesFrom_iff_existsDecomp :
    ∀ (pats : List (List (List Nat))) (l : List Nat),
      matchesFrom pats l = true ↔ ExistsDecomp pats l := by
  intro pats
  induction pats with
  | nil => intro l; simp [matchesFrom, ExistsDecomp]
  | cons alts rest ih =>
    intro l
    unfold matchesFrom ExistsDecomp
    rw [scanFor_iff]
    constructor
    · rintro ⟨g, p, l2, hp, heq, hcont⟩
      exact ⟨g, p, l2, hp, heq, (ih l2).mp hcont⟩
    · rintro ⟨g, p, l2, hp, heq, hcont⟩
      exact ⟨g, p, l2, hp, heq, (ih l2).mpr hcont⟩

/-- A successful fueled decode consumes exactly the total UTF-8 size of its output. -/
theorem utf8DecodeFuel_length :
    ∀ (fuel : Nat) (l t : List Nat), utf8DecodeFuel fuel l = some t →
      l.length = (t.map utf8SizeN).sum := by
  intro fuel
  induction fuel with
  | zero =>
    intro l t h
    match l with
    | [] =>
      simp [utf8DecodeFuel] at h
      subst h
      simp
    | a :: r => simp [utf8DecodeFuel] at h
  | succ fuel ih =>
    intro l t h
    match l with
    | [] =>
      simp [utf8DecodeFuel] at h
      subst h
      simp
    | a :: r =>
      unfold utf8DecodeFuel at h
      match hstep : utf8Step (a :: r) with
      | none => rw [hstep] at h; simp at h
      | some (c, rest) =>
        rw [hstep] at h
        rw [Option.map_eq_some'] at h
        obtain ⟨t0, ht0, hteq⟩ := h
        subst hteq
        have hrest := ih rest t0 ht0
        have hsz := utf8Step_size hstep
        simp only [List.map_cons, List.sum_cons]
        omega

/-- A successful decode consumes exactly the total UTF-8 size of its output. -/
theorem utf8Decode_length {l t : List Nat} (h : utf8Decode l = some t) :
    l.length = (t.map utf8SizeN).sum :=
  utf8DecodeFuel_length l.length l t h

/-- The UTF-16 encoding has exactly the total UTF-16 size of its input. -/
theorem utf16Encode_length : ∀ t : List Nat,
    (utf16Encode t).length = (t.map utf16SizeN).sum := by
  intro t
  induction t with
  | nil => simp [utf16Encode]
  | cons c r ih =>
    unfold utf16Encode
    by_cases hc : c < 65536
    · simp [hc, ih, utf16SizeN]
      omega
    · simp [hc, ih, utf16SizeN]
      omega

/-- The low byte serialization has exactly the total UTF-16 size of its input. -/
theorem node_buffer_binary_serializer_length (t : List Nat) :
    (node_buffer_binary_serializer t).length = (t.map utf16SizeN).sum := by
  unfold node_buffer_binary_serializer
  rw [List.length_map]
  exact utf16Encode_length t

/-- Every scalar needs at most as many UTF-8 bytes as UTF-16 code units, with
room to spare. -/
theorem utf16SizeN_le_utf8SizeN (c : Nat) : utf16SizeN c ≤ utf8SizeN c := by
  unfold utf16SizeN utf8SizeN
  split
  · split
    · omega
    · split <;> omega
  · split
    · omega
    · split <;> omega

/-- A scalar outside ASCII needs strictly fewer UTF-16 code units than UTF-8 bytes. -/
theorem utf16SizeN_lt_utf8SizeN {c : Nat} (h : 128 ≤ c) :
    utf16SizeN c < utf8SizeN c := by
  unfold utf16SizeN utf8SizeN
  split
  · split
    · omega
    · split <;> omega
  · split
    · omega
    · split <;> omega

/-- Any list containing a scalar outside ASCII has a strictly smaller total
UTF-16 size than total UTF-8 size. -/
theorem sum_utf16_lt_sum_utf8 :
    ∀ (t : List Nat) (c : Nat), c ∈ t → 128 ≤ c →
      (t.map utf16SizeN).sum < (t.map utf8SizeN).sum := by
  intro t
  induction t with
  | nil => intro c hc; simp at hc
  | cons a r ih =>
    intro c hc h128
    simp only [List.map_cons, List.sum_cons]
    rcases List.mem_cons.mp hc with ha | hr
    · subst ha
      have h1 : utf16SizeN c < utf8SizeN c := utf16SizeN_lt_utf8SizeN h128
      have h2 : (r.map utf16SizeN).sum ≤ (r.map utf8SizeN).sum :=
        List.sum_le_sum (fun i _ => utf16SizeN_le_utf8SizeN i)
      omega
    · have h1 : utf16SizeN a ≤ utf8SizeN a := utf16SizeN_le_utf8SizeN a
      have h2 := ih c hr h128
      omega

/-- UTF-16 length of a constant basic plane string: one unit per character. -/
theorem utf16Len_replicate {c : Nat} (hc : c < 65536) (n : Nat) :
    utf16Len (List.replicate n c) = n := by
  unfold utf16Len
  rw [List.map_replicate, List.sum_replicate]
  simp [utf16SizeN, hc]

/-- The private content block never panics. -/
theorem base64_check_no_panic (mv : SsbMessageValue) (bytes : List Nat) :
    base64_check mv bytes ≠ VRes.panicked := by
  unfold base64_check
  split
  · split <;> simp
  · simp

/-- The length block never panics. -/
theorem length_check_no_panic (D : Deps) (mv : SsbMessageValue) (bytes : List Nat) :
    length_check D mv bytes ≠ VRes.panicked := by
  unfold length_check
  split <;> simp

/-- The previous message block cannot panic as long as a previous key accompanies
every previous value. -/
theorem previous_checks_no_panic {mv : SsbMessageValue} {pv : Option SsbMessageValue}
    {bytes : List Nat} {pk : Option Multihash} {cp : Bool}
    (h : pv.isSome = true → pk.isSome = true) :
    previous_checks mv pv bytes pk cp ≠ VRes.panicked := by
  match cp with
  | false => simp [previous_checks]
  | true =>
    match pv with
    | none =>
      simp only [previous_checks]
      repeat' split
      all_goals simp
    | some pv0 =>
      have hk : pk.isSome = true := h rfl
      match pk with
      | none => simp at hk
      | some k0 =>
        simp only [previous_checks]
        repeat' split
        all_goals simp

/-- The common checks cannot panic as long as a previous key accompanies every
previous value. -/
theorem common_checks_no_panic {D : Deps} {mv : SsbMessageValue}
    {pv : Option SsbMessageValue} {bytes : List Nat} {pk : Option Multihash} {cp : Bool}
    (h : pv.isSome = true → pk.isSome = true) :
    message_value_common_checks D mv pv bytes pk cp ≠ VRes.panicked := by
  unfold message_value_common_checks
  split
  · simp
  · split
    · simp
    · intro hcontra
      rcases hb4 : base64_check mv bytes with _ | e | _
      · rw [hb4] at hcontra
        simp only [andThen] at hcontra
        rcases hpc : previous_checks mv pv bytes pk cp with _ | e2 | _
        · rw [hpc] at hcontra
          simp only [andThen] at hcontra
          exact (length_check_no_panic D mv bytes) hcontra
        · rw [hpc] at hcontra; simp at hcontra
        · exact (@previous_checks_no_panic mv pv bytes pk cp h) hpc
      · rw [hb4] at hcontra; simp [andThen] at hcontra
      · exact (base64_check_no_panic mv bytes) hb4

/-- The hash recomputation block cannot panic when the generic parse of the
bytes yields an object whenever it succeeds, and every serialization on the
hash path (the compact flag false) is valid UTF-8. -/
theorem hash_check_tail_no_panic {D : Deps} {mbytes : List Nat} {key : Multihash}
    (hobj : ∀ g, D.fromSliceGeneric mbytes = some g → ∃ o, g = Value.object o)
    (h3 : ∀ v b, D.toVec v false = some b → (utf8Decode b).isSome = true) :
    hash_check_tail D mbytes key ≠ VRes.panicked := by
  unfold hash_check_tail
  intro hcontra
  match hg : D.fromSliceGeneric mbytes with
  | none => simp [hg] at hcontra
  | some g =>
    obtain ⟨o, ho⟩ := hobj g hg
    subst ho
    simp only [hg] at hcontra
    match hl : List.lookup litValueKey o with
    | none => simp [hl] at hcontra
    | some v =>
      simp only [hl] at hcontra
      match hv : D.toVec v false with
      | none => simp [hv] at hcontra
      | some vb =>
        simp only [hv] at hcontra
        have hutf := h3 v vb hv
        match hm : multihash_from_bytes D.sha256 vb with
        | none =>
          unfold multihash_from_bytes at hm
          rw [Option.map_eq_none'] at hm
          rw [hm] at hutf
          simp at hutf
        | some mh =>
          simp only [hm] at hcontra
          split at hcontra <;> simp at hcontra

/-- A message value whose content is the string Xbox, where the character before
the letters box is X rather than a dot. -/
def mvXbox : SsbMessageValue :=
  { mv1 with content := ⟨Value.string (litStr (r"Xbox"))⟩ }

/-- A message value whose content is the string dot box, a canonical box string. -/
def mvBox : SsbMessageValue :=
  { mv1 with content := ⟨Value.string (litStr (r".box"))⟩ }

/-- A nine thousand character serialization, above the length bound. -/
def longStr : List Nat := List.replicate 9000 97

/-- The fixture dependencies with a pretty serializer whose output exceeds the
length bound. -/
def depsLong : Deps := { testDeps with toStringPretty := fun _ => some longStr }

/-- The fixture dependencies with a pretty serializer whose output has exactly
8192 UTF-16 code units. -/
def deps8192 : Deps :=
  { testDeps with toStringPretty := fun _ => some (List.replicate 8192 118) }

/-- The second fixture message value with its sequence changed to three. -/
def mvSeq3 : SsbMessageValue := { mv2 with sequence := 3 }

/-- Bytes no decoder recognizes and without the ordered key literals. -/
def bytesBad : List Nat := litStr (r"bad")

/-- Bytes containing previous, then author twice with no sequence, then the
remaining key literals in order. -/
def bytesOrderDup : List Nat :=
  litStr (r#" "previous" x "author" x "author" x "timestamp" x "hash" x "content" x "signature" "#)

/-- A dependency record whose decoders and serializers always fail. -/
def emptyDeps : Deps :=
  { fromSliceValue := fun _ => none, fromSliceMessage := fun _ => none,
    fromSliceGeneric := fun _ => none, toStringPretty := fun _ => none,
    toVec := fun _ _ => none, sha256 := fun b => b }

/-- Key-value message whose key is the multihash of the whitespace preserving
serialization of its value subtree (which, under depsFlag, carries a leading
space byte the compact form lacks). -/
def kmF : SsbMessage := { key := Multihash.Message (32 :: vb1), value := kmv1 }

/-- A dependency record whose byte serializer output depends on the compact
flag: the whitespace preserving form (flag false) carries a leading space byte
that the compact form (flag true) lacks, so the two serializations of the same
value subtree differ. -/
def depsFlag : Deps :=
  { fromSliceValue := fun _ => none,
    fromSliceMessage := fun b => if b = kbytes1 then some kmF else none,
    fromSliceGeneric := fun b =>
      if b = kbytes1 then some (Value.object [(litValueKey, Value.string vb1)])
      else none,
    toStringPretty := fun _ => some (litStr (r"v")),
    toVec := fun v compact =>
      match v with
      | Value.string l => some (if compact then l else 32 :: l)
      | _ => none,
    sha256 := fun b => b }

/-!
Claim theorems.
-/

/-- C2: for every sequence of messages and optional external predecessor, the
batch drivers (full message and value only) succeed exactly when the
corresponding single message validator succeeds at every index i on entry i with
predecessor entry i-1 (the external predecessor at index 0, None when absent);
the batch driver is equivalent to sequential adjacent pair validation up to
which error is reported. -/
theorem c2_batch_equiv_sequential (D : Deps) (messages : List (List Nat))
    (previous : Option (List Nat)) :
    (par_validate_message_hash_chain_of_feed D messages previous = VRes.ok ↔
      ∀ i, i < messages.length →
        validate_message_hash_chain D (messages.getD i []) (prevAt previous messages i) =
          VRes.ok) ∧
    (par_validate_message_value_hash_chain_of_feed D messages previous = VRes.ok ↔
      ∀ i, i < messages.length →
        validate_message_value_hash_chain D (messages.getD i [])
          (prevAt previous messages i) = VRes.ok) :=
  ⟨chainFold_ok_iff (validate_message_hash_chain D) messages previous,
   chainFold_ok_iff (validate_message_value_hash_chain D) messages previous⟩

/-- Witness for C2: the two element fixture feeds validate as batches. -/
theorem c2_batch_equiv_sequential_witness :
    par_validate_message_value_hash_chain_of_feed testDeps [bytes1, bytes2] none =
      VRes.ok ∧
    par_validate_message_hash_chain_of_feed testDeps [kbytes1, kbytes2] none =
      VRes.ok := by
  constructor
  · exact (c2_batch_equiv_sequential testDeps [bytes1, bytes2] none).2.mpr (by decide)
  · exact (c2_batch_equiv_sequential testDeps [kbytes1, kbytes2] none).1.mpr (by decide)

/-- C3: with a predecessor present in full chain mode, once the structural
checks before it pass, the chain check enforces exactly author equality
(AuthorsDidNotMatch), sequence increment (InvalidSequenceNumber with actual and
expected), previous not null (PreviousWasNull), and previous equal to the
predecessor key (ForkedFeed with the predecessor sequence), in that order. -/
theorem c3_chain_check_order (D : Deps) (mv pv : SsbMessageValue) (bytes : List Nat)
    (k : Multihash) (horder : is_correct_order bytes = true)
    (hhash : mv.hash = sha256Lit) (hb64 : base64_check mv bytes = VRes.ok) :
    message_value_common_checks D mv (some pv) bytes (some k) true =
      (if mv.author ≠ pv.author then
        VRes.err (VErr.AuthorsDidNotMatch pv.author mv.author)
       else if mv.sequence ≠ pv.sequence + 1 then
         VRes.err (VErr.InvalidSequenceNumber bytes mv.sequence (pv.sequence + 1))
       else
         match mv.previous with
         | none => VRes.err VErr.PreviousWasNull
         | some prev =>
           if prev ≠ k then VRes.err (VErr.ForkedFeed pv.sequence)
           else length_check D mv bytes) := by
  rw [common_checks_unfold D mv (some pv) bytes (some k) true horder hhash, hb64,
    previous_checks_some_true]
  by_cases hauthor : mv.author = pv.author
  · by_cases hseq : mv.sequence = pv.sequence + 1
    · rcases hp : mv.previous with _ | p0
      · simp [hauthor, hseq, hp, andThen]
      · by_cases hne : p0 = k
        · simp [hauthor, hseq, hp, hne, andThen]
        · simp [hauthor, hseq, hp, hne, andThen]
    · simp [hauthor, hseq, andThen]
  · simp [hauthor, andThen]

/-- Witness for C3: the fixture pair passes the chain checks. -/
theorem c3_chain_check_order_witness :
    message_value_common_checks testDeps mv2 (some mv1) bytes2 (some K1val) true =
      VRes.ok := by
  rw [c3_chain_check_order testDeps mv2 mv1 bytes2 K1val (by decide) rfl (by decide)]
  decide

/-- C8: once the other checks pass and the pretty serialization is the string s,
validation succeeds exactly when the UTF-16 length of s is at most 8192 (so a
serialization of exactly 8192 code units is accepted), and a longer one fails
with InvalidMessageValueLength. -/
theorem c8_length_check (D : Deps) (mv : SsbMessageValue)
    (pv : Option SsbMessageValue) (bytes : List Nat) (pk : Option Multihash) (cp : Bool)
    (s : List Nat) (horder : is_correct_order bytes = true) (hhash : mv.hash = sha256Lit)
    (hb64 : base64_check mv bytes = VRes.ok)
    (hprev : previous_checks mv pv bytes pk cp = VRes.ok)
    (hser : D.toStringPretty mv = some s) :
    (message_value_common_checks D mv pv bytes pk cp = VRes.ok ↔ utf16Len s ≤ 8192) ∧
      (8192 < utf16Len s →
        message_value_common_checks D mv pv bytes pk cp =
          VRes.err (VErr.InvalidMessageValueLength bytes)) := by
  rw [common_checks_unfold D mv pv bytes pk cp horder hhash, hb64, hprev]
  simp only [andThen]
  unfold length_check is_correct_length
  simp only [hser]
  by_cases hlen : utf16Len s > 8192
  · rw [if_pos hlen]
    constructor
    · constructor
      · intro hcontra
        exact absurd hcontra (by simp)
      · intro hle
        omega
    · intro _
      rfl
  · rw [if_neg hlen]
    constructor
    · constructor
      · intro _
        omega
      · intro _
        rfl
    · intro hgt
      exact absurd hgt hlen

/-- Witness for C8: a pretty serialization of exactly 8192 code units is accepted. -/
theorem c8_length_check_witness :
    message_value_common_checks deps8192 mv1 none bytes1 none false = VRes.ok := by
  have h := c8_length_check deps8192 mv1 none bytes1 none false
    (List.replicate 8192 118) (by decide) rfl (by decide) (by decide) rfl
  exact h.1.mpr (le_of_eq (utf16Len_replicate (by omega) 8192))

/-- C6 counterexample: the claim asserts that a content string failing the spec
pattern (whose tail requires a literal dot before box) fails with InvalidBase64;
but the code pattern treats the character before box as a wildcard, so the
string Xbox passes the code check and the whole validation succeeds. -/
theorem c6_counterexample :
    spec_canonical_base64 (litStr (r"Xbox")) = false ∧
    is_canonical_base64 (litStr (r"Xbox")) = true ∧
    message_value_common_checks testDeps mvXbox none bytes1 none false = VRes.ok := by
  refine ⟨by decide, by decide, by decide⟩

/-- C6 amended: for a message whose content is the string s, once the order and
hash function checks pass, the validation reports InvalidBase64 exactly when s
fails the code regex, in which the character before box is a wildcard matching
any character except newline. -/
theorem c6_base64_box_amended (D : Deps) (mv : SsbMessageValue)
    (pv : Option SsbMessageValue) (bytes : List Nat) (pk : Option Multihash) (cp : Bool)
    (s : List Nat) (hcontent : mv.content.inner = Value.string s)
    (horder : is_correct_order bytes = true) (hhash : mv.hash = sha256Lit) :
    message_value_common_checks D mv pv bytes pk cp = VRes.err (VErr.InvalidBase64 bytes)
      ↔ is_canonical_base64 s = false := by
  rw [common_checks_unfold D mv pv bytes pk cp horder hhash]
  constructor
  · intro h
    by_cases hc : is_canonical_base64 s
    · exfalso
      have hb : base64_check mv bytes = VRes.ok := by
        unfold base64_check
        rw [hcontent]
        simp [hc]
      rw [hb] at h
      simp only [andThen] at h
      rcases hpc : previous_checks mv pv bytes pk cp with _ | e2 | _
      · rw [hpc] at h
        simp only [andThen] at h
        exact (length_check_ne_base64 D mv bytes bytes) h
      · rw [hpc] at h
        simp only [andThen] at h
        exact (previous_checks_ne_base64 mv pv bytes pk cp bytes) (hpc.trans h)
      · rw [hpc] at h
        simp at h
    · simpa using hc
  · intro hfalse
    have hb : base64_check mv bytes = VRes.err (VErr.InvalidBase64 bytes) := by
      unfold base64_check
      rw [hcontent]
      simp [hfalse]
    rw [hb]
    simp [andThen]

/-- Witness for C6 amended: a content string passing the code regex never
yields InvalidBase64. -/
theorem c6_base64_box_amended_witness :
    message_value_common_checks testDeps mvBox none bytes1 none false ≠
      VRes.err (VErr.InvalidBase64 bytes1) := by
  intro hcontra
  have h := (c6_base64_box_amended testDeps mvBox none bytes1 none false
    (litStr (r".box")) rfl (by decide) rfl).mp hcontra
  exact absurd h (by decide)

/-- C7 counterexample: a message value with a wrong sequence and an over long
pretty serialization reports InvalidSequenceNumber, not InvalidMessageValueLength
(the length bound is checked after, not before, the chain comparison); and bytes
that fail strict decoding report InvalidMessage even though they also fail the
field order pattern. -/
theorem c7_counterexample :
    is_correct_length depsLong mvSeq3 = some false ∧
    message_value_common_checks depsLong mvSeq3 (some mv1) bytes2 (some K1val) true =
      VRes.err (VErr.InvalidSequenceNumber bytes2 3 2) ∧
    message_value_common_checks depsLong mvSeq3 (some mv1) bytes2 (some K1val) true ≠
      VRes.err (VErr.InvalidMessageValueLength bytes2) ∧
    testDeps.fromSliceValue bytesBad = none ∧
    is_correct_order bytesBad = false ∧
    validate_message_value testDeps bytesBad = VRes.err (VErr.InvalidMessage bytesBad) := by
  refine ⟨?_, by decide, by decide, rfl, by decide, by decide⟩
  unfold is_correct_length
  have hser : depsLong.toStringPretty mvSeq3 = some longStr := rfl
  simp only [hser]
  have hlen : utf16Len longStr > 8192 := by
    show utf16Len (List.replicate 9000 97) > 8192
    rw [utf16Len_replicate (by omega) 9000]
    omega
  rw [if_pos hlen]

/-- C7 amended: the order, hash function and base64 checks precede the chain
comparison, but the length bound runs last overall, after the chain checks; so a
message violating both the length bound and the sequence rule reports the chain
error, and bytes failing strict decoding report InvalidMessage before the field
order check is consulted. -/
theorem c7_check_order_amended :
    (∀ (D : Deps) (mv pv : SsbMessageValue) (bytes : List Nat) (k : Multihash),
      is_correct_order bytes = true → mv.hash = sha256Lit →
      base64_check mv bytes = VRes.ok → mv.author = pv.author →
      mv.sequence ≠ pv.sequence + 1 →
      message_value_common_checks D mv (some pv) bytes (some k) true =
        VRes.err (VErr.InvalidSequenceNumber bytes mv.sequence (pv.sequence + 1))) ∧
    (∀ (D : Deps) (mv : SsbMessageValue) (pv : Option SsbMessageValue)
       (bytes : List Nat) (pk : Option Multihash) (cp : Bool),
      is_correct_order bytes = false →
      message_value_common_checks D mv pv bytes pk cp =
        VRes.err (VErr.InvalidMessageValueOrder bytes)) ∧
    (∀ (D : Deps) (bytes : List Nat), D.fromSliceValue bytes = none →
      validate_message_value D bytes = VRes.err (VErr.InvalidMessage bytes)) := by
  refine ⟨?_, ?_, ?_⟩
  · intro D mv pv bytes k horder hhash hb64 hauthor hseq
    rw [common_checks_unfold D mv (some pv) bytes (some k) true horder hhash, hb64,
      previous_checks_some_true]
    simp [hauthor, hseq, andThen]
  · intro D mv pv bytes pk cp horder
    unfold message_value_common_checks
    rw [if_pos (by simp [horder])]
  · intro D bytes hdec
    unfold validate_message_value
    simp only [hdec]

/-- Witness for C7 amended at the fixtures. -/
theorem c7_check_order_amended_witness :
    message_value_common_checks depsLong mvSeq3 (some mv1) bytes2 (some K1val) true =
      VRes.err (VErr.InvalidSequenceNumber bytes2 3 2) ∧
    message_value_common_checks testDeps mv1 (some mv1) bytesBad (some K1val) true =
      VRes.err (VErr.InvalidMessageValueOrder bytesBad) ∧
    validate_message_value testDeps bytesBad = VRes.err (VErr.InvalidMessage bytesBad) := by
  refine ⟨?_, ?_, ?_⟩
  · have h := c7_check_order_amended.1 depsLong mvSeq3 mv1 bytes2 K1val
      (by decide) rfl (by decide) (by decide) (by decide)
    exact h
  · exact c7_check_order_amended.2.1 testDeps mv1 (some mv1) bytesBad (some K1val) true
      (by decide)
  · exact c7_check_order_amended.2.2 testDeps bytesBad rfl

/-- C9 counterexample: the claim asserts the field order check passes only when
one of author and sequence is followed by the other; the code regex accepts the
same literal twice, so bytes with author twice and no sequence pass the code
check while failing the spec pattern. -/
theorem c9_counterexample :
    is_correct_order bytesOrderDup = true ∧ spec_correct_order bytesOrderDup = false := by
  refine ⟨by decide, by decide⟩

/-- C9 amended: the field order check passes exactly when the raw bytes contain,
in order, the quoted literals previous, then one of author and sequence, then
again one of author and sequence (independently, possibly the same one twice),
then timestamp, hash, content and signature; and the validation reports
InvalidMessageValueOrder exactly when that pattern fails. -/
theorem c9_field_order_amended :
    (∀ bytes, is_correct_order bytes = true ↔ ExistsDecomp orderPats bytes) ∧
    (∀ (D : Deps) (mv : SsbMessageValue) (pv : Option SsbMessageValue)
       (bytes : List Nat) (pk : Option Multihash) (cp : Bool),
      message_value_common_checks D mv pv bytes pk cp =
          VRes.err (VErr.InvalidMessageValueOrder bytes) ↔
        is_correct_order bytes = false) := by
  constructor
  · intro bytes
    exact matchesFrom_iff_existsDecomp orderPats bytes
  · intro D mv pv bytes pk cp
    constructor
    · intro h
      by_cases horder : is_correct_order bytes
      · exfalso
        unfold message_value_common_checks at h
        rw [if_neg (by simp [horder])] at h
        split at h
        · simp at h
        · rcases hb4 : base64_check mv bytes with _ | e | _
          · rw [hb4] at h
            simp only [andThen] at h
            rcases hpc : previous_checks mv pv bytes pk cp with _ | e2 | _
            · rw [hpc] at h
              simp only [andThen] at h
              exact (length_check_ne_order D mv bytes bytes) h
            · rw [hpc] at h
              simp only [andThen] at h
              exact (previous_checks_ne_order mv pv bytes pk cp bytes) (hpc.trans h)
            · rw [hpc] at h
              simp at h
          · rw [hb4] at h
            simp only [andThen] at h
            exact (base64_check_ne_order mv bytes bytes) (hb4.trans h)
          · rw [hb4] at h
            simp [andThen] at h
      · cases hcb : is_correct_order bytes with
        | false => rfl
        | true => exact absurd hcb horder
    · intro horder
      unfold message_value_common_checks
      rw [if_pos (by simp [horder])]

/-- Witness for C9 amended at the fixtures. -/
theorem c9_field_order_amended_witness :
    ExistsDecomp orderPats bytes1 ∧
    message_value_common_checks testDeps mv1 none bytesBad none false =
      VRes.err (VErr.InvalidMessageValueOrder bytesBad) := by
  constructor
  · exact (c9_field_order_amended.1 bytes1).mp (by decide)
  · exact (c9_field_order_amended.2 testDeps mv1 none bytesBad none false).mpr (by decide)

/-- Reduction of the hash recomputation block at explicit parse, lookup,
serialization and decode results. -/
theorem hash_check_tail_eq {D : Deps} {mbytes : List Nat} {key : Multihash}
    {o : List (List Nat × Value)} {v : Value} {vb txt : List Nat}
    (hg : D.fromSliceGeneric mbytes = some (Value.object o))
    (hl : List.lookup litValueKey o = some v) (hv : D.toVec v false = some vb)
    (ht : utf8Decode vb = some txt) :
    hash_check_tail D mbytes key =
      (if Multihash.Message (D.sha256 (node_buffer_binary_serializer txt)) = key
       then VRes.ok
       else VRes.err (VErr.ActualHashDidNotMatchKey mbytes
         (Multihash.Message (D.sha256 (node_buffer_binary_serializer txt))) key)) := by
  unfold hash_check_tail
  simp only [hg, hl, hv]
  unfold multihash_from_bytes
  rw [ht]
  rfl

/-- C1 amended: for every KVT message that decodes and passes the structural
and chain checks, the full chain validator (and the out of order and multi
author KVT variants) reparses the bytes as a generic tree, takes the value
subtree, serializes it in the whitespace preserving form (the codec serializer
with the compact flag false, not the compact form), recomputes the multihash
through the UTF-16 low byte transform followed by the digest, and succeeds
exactly when the recomputed multihash equals the key; a mismatch yields
ActualHashDidNotMatchKey with the actual and the expected hash. -/
theorem c1_kvt_hash_recompute :
    (∀ (D : Deps) (mbytes : List Nat) (prev_opt : Option (List Nat))
       (pv : Option SsbMessageValue) (pk : Option Multihash) (m : SsbMessage)
       (o : List (List Nat × Value)) (v : Value) (vb txt : List Nat),
       (match prev_opt with
        | none => pv = none ∧ pk = none
        | some pb => ∃ p, D.fromSliceMessage pb = some p ∧ pv = some p.value ∧
            pk = some p.key) →
       D.fromSliceMessage mbytes = some m →
       message_value_common_checks D m.value pv mbytes pk true = VRes.ok →
       D.fromSliceGeneric mbytes = some (Value.object o) →
       List.lookup litValueKey o = some v →
       D.toVec v false = some vb →
       utf8Decode vb = some txt →
       validate_message_hash_chain D mbytes prev_opt =
         (if Multihash.Message (D.sha256 (node_buffer_binary_serializer txt)) = m.key
          then VRes.ok
          else VRes.err (VErr.ActualHashDidNotMatchKey mbytes
            (Multihash.Message (D.sha256 (node_buffer_binary_serializer txt))) m.key))) ∧
    (∀ (D : Deps) (mbytes : List Nat) (prev_opt : Option (List Nat)) (m : SsbMessage)
       (o : List (List Nat × Value)) (v : Value) (vb txt : List Nat),
       (match prev_opt with
        | none => True
        | some pb => ∃ p, D.fromSliceMessage pb = some p ∧
            m.value.author = p.value.author) →
       D.fromSliceMessage mbytes = some m →
       message_value_common_checks D m.value none mbytes none false = VRes.ok →
       D.fromSliceGeneric mbytes = some (Value.object o) →
       List.lookup litValueKey o = some v →
       D.toVec v false = some vb →
       utf8Decode vb = some txt →
       validate_ooo_message_hash_chain D mbytes prev_opt =
         (if Multihash.Message (D.sha256 (node_buffer_binary_serializer txt)) = m.key
          then VRes.ok
          else VRes.err (VErr.ActualHashDidNotMatchKey mbytes
            (Multihash.Message (D.sha256 (node_buffer_binary_serializer txt))) m.key))) ∧
    (∀ (D : Deps) (mbytes : List Nat) (m : SsbMessage)
       (o : List (List Nat × Value)) (v : Value) (vb txt : List Nat),
       D.fromSliceMessage mbytes = some m →
       message_value_common_checks D m.value none mbytes none false = VRes.ok →
       D.fromSliceGeneric mbytes = some (Value.object o) →
       List.lookup litValueKey o = some v →
       D.toVec v false = some vb →
       utf8Decode vb = some txt →
       validate_multi_author_message_hash_chain D mbytes =
         (if Multihash.Message (D.sha256 (node_buffer_binary_serializer txt)) = m.key
          then VRes.ok
          else VRes.err (VErr.ActualHashDidNotMatchKey mbytes
            (Multihash.Message (D.sha256 (node_buffer_binary_serializer txt))) m.key))) := by
  refine ⟨?_, ?_, ?_⟩
  · intro D mbytes prev_opt pv pk m o v vb txt hprev hm hcc hg hl hv ht
    match prev_opt with
    | none =>
      obtain ⟨hpv, hpk⟩ := hprev
      subst hpv; subst hpk
      unfold validate_message_hash_chain
      simp only [hm]
      rw [hcc]
      simp only [andThen]
      exact hash_check_tail_eq hg hl hv ht
    | some pb =>
      obtain ⟨p, hp, hpv, hpk⟩ := hprev
      subst hpv; subst hpk
      unfold validate_message_hash_chain
      simp only [hp, hm]
      rw [hcc]
      simp only [andThen]
      exact hash_check_tail_eq hg hl hv ht
  · intro D mbytes prev_opt m o v vb txt hprev hm hcc hg hl hv ht
    match prev_opt with
    | none =>
      unfold validate_ooo_message_hash_chain
      simp only [hm]
      rw [hcc]
      simp only [andThen]
      exact hash_check_tail_eq hg hl hv ht
    | some pb =>
      obtain ⟨p, hp, hauth⟩ := hprev
      unfold validate_ooo_message_hash_chain
      simp only [hp, hm]
      rw [hcc]
      simp only [andThen]
      rw [if_neg (by simp [hauth])]
      exact hash_check_tail_eq hg hl hv ht
  · intro D mbytes m o v vb txt hm hcc hg hl hv ht
    unfold validate_multi_author_message_hash_chain
    simp only [hm]
    rw [hcc]
    simp only [andThen]
    exact hash_check_tail_eq hg hl hv ht

/-- Witness for C1: the second fixture KVT message validates in all three modes,
with the recomputed hash matching the key. -/
theorem c1_kvt_hash_recompute_witness :
    validate_message_hash_chain testDeps kbytes2 (some kbytes1) = VRes.ok ∧
    validate_ooo_message_hash_chain testDeps kbytes2 (some kbytes1) = VRes.ok ∧
    validate_multi_author_message_hash_chain testDeps kbytes2 = VRes.ok := by
  refine ⟨?_, ?_, ?_⟩
  · have h := c1_kvt_hash_recompute.1 testDeps kbytes2 (some kbytes1)
      (some km1.value) (some km1.key) km2 [(litValueKey, Value.string vb2)]
      (Value.string vb2) vb2 vb2 ⟨km1, rfl, rfl, rfl⟩ rfl (by decide) rfl rfl rfl
      (by decide)
    rw [h]
    decide
  · have h := c1_kvt_hash_recompute.2.1 testDeps kbytes2 (some kbytes1) km2
      [(litValueKey, Value.string vb2)] (Value.string vb2) vb2 vb2
      ⟨km1, rfl, by decide⟩ rfl (by decide) rfl rfl rfl (by decide)
    rw [h]
    decide
  · have h := c1_kvt_hash_recompute.2.2 testDeps kbytes2 km2
      [(litValueKey, Value.string vb2)] (Value.string vb2) vb2 vb2
      rfl (by decide) rfl rfl rfl (by decide)
    rw [h]
    decide

/-- C1 counterexample: the claim says the hash pre-image is the value subtree
re-serialized in compact form, but the validator serializes it with the codec
compact flag set to false (the whitespace preserving form): at a codec whose
two forms differ by a leading space byte, the full chain validator succeeds
with the key equal to the multihash of the whitespace preserving serialization,
while the multihash of the compact serialization differs from the key. -/
theorem c1_compact_form_counterexample :
    depsFlag.toVec (Value.string vb1) true ≠ depsFlag.toVec (Value.string vb1) false ∧
    validate_message_hash_chain depsFlag kbytes1 none = VRes.ok ∧
    multihash_from_bytes depsFlag.sha256 (32 :: vb1) = some kmF.key ∧
    multihash_from_bytes depsFlag.sha256 vb1 ≠ some kmF.key := by
  refine ⟨by decide, by decide, by decide, by decide⟩

set_option maxRecDepth 8000 in
/-- C4 counterexample: a single byte of the first fixture KVT message is mutated
inside the value (the signature text), it still decodes, and the hash recomputed
from its value subtree (and from its raw bytes) changes; the claim then demands
ForkedFeed when the second message is validated against the mutated predecessor
in full message mode, but the full message validator reads the predecessor key
from the untouched key field and the validation succeeds. -/
theorem c4_counterexample :
    differInOneByte kbytes1 kbytes1m = true ∧
    testDeps.fromSliceMessage kbytes1m = some km1m ∧
    multihash_from_bytes testDeps.sha256 vb1m ≠ multihash_from_bytes testDeps.sha256 vb1 ∧
    multihash_from_bytes testDeps.sha256 kbytes1m ≠
      multihash_from_bytes testDeps.sha256 kbytes1 ∧
    validate_message_hash_chain testDeps kbytes2 (some kbytes1) = VRes.ok ∧
    validate_message_hash_chain testDeps kbytes2 (some kbytes1m) = VRes.ok := by
  refine ⟨by decide, rfl, by decide, by decide, by decide, by decide⟩

/-- C4 amended: in value only mode, when the mutated predecessor still decodes
with the same author and sequence and its recomputed hash changes, validating
the next message against it fails with ForkedFeed carrying the predecessor
sequence; in full message mode the predecessor key is read from the key field,
so a mutation that leaves the key field unchanged leaves the validation
succeeding. -/
theorem c4_fork_detection_amended :
    (∀ (D : Deps) (pb pbm mbytes : List Nat) (pv pvm mv : SsbMessageValue),
       D.fromSliceValue pb = some pv →
       D.fromSliceValue pbm = some pvm →
       D.fromSliceValue mbytes = some mv →
       pvm.author = pv.author →
       pvm.sequence = pv.sequence →
       validate_message_value_hash_chain D mbytes (some pb) = VRes.ok →
       multihash_from_bytes D.sha256 pbm ≠ multihash_from_bytes D.sha256 pb →
       (utf8Decode pbm).isSome = true →
       validate_message_value_hash_chain D mbytes (some pbm) =
         VRes.err (VErr.ForkedFeed pvm.sequence)) ∧
    (∀ (D : Deps) (pb pbm mbytes : List Nat) (p pm : SsbMessage),
       D.fromSliceMessage pb = some p →
       D.fromSliceMessage pbm = some pm →
       pm.value.author = p.value.author →
       pm.value.sequence = p.value.sequence →
       pm.key = p.key →
       validate_message_hash_chain D mbytes (some pb) = VRes.ok →
       validate_message_hash_chain D mbytes (some pbm) = VRes.ok) := by
  constructor
  · intro D pb pbm mbytes pv pvm mv hpb hpbm hmv hauth hseq hok hne hdm
    unfold validate_message_value_hash_chain at hok
    simp only [hpb] at hok
    match hk : multihash_from_bytes D.sha256 pb with
    | none => rw [hk] at hok; simp at hok
    | some k =>
      rw [hk] at hok
      simp only [hmv] at hok
      obtain ⟨horder, hhash, hb64, hauthor2, hseq2, hprev, hlen⟩ :=
        common_checks_ok_inv hok
      have hsm : ∃ km, multihash_from_bytes D.sha256 pbm = some km := by
        unfold multihash_from_bytes
        match hd : utf8Decode pbm with
        | none => rw [hd] at hdm; simp at hdm
        | some t => exact ⟨_, rfl⟩
      obtain ⟨km, hkm⟩ := hsm
      unfold validate_message_value_hash_chain
      simp only [hpbm, hkm, hmv]
      have hkne : k ≠ km := by
        intro hc
        apply hne
        rw [hkm, hk, hc]
      exact common_checks_forked horder hhash hb64 (by rw [hauthor2, hauth])
        (by rw [hseq2, hseq]) hprev hkne
  · intro D pb pbm mbytes p pm hpb hpbm hauth hseq hkey hok
    unfold validate_message_hash_chain at hok ⊢
    simp only [hpb] at hok
    simp only [hpbm]
    match hm : D.fromSliceMessage mbytes with
    | none => rw [hm] at hok; simp at hok
    | some m =>
      rw [hm] at hok
      have hok2 : andThen (message_value_common_checks D m.value (some p.value) mbytes
          (some p.key) true) (hash_check_tail D mbytes m.key) = VRes.ok := hok
      rw [andThen_ok_iff] at hok2
      obtain ⟨hcc, htail⟩ := hok2
      obtain ⟨horder, hhash, hb64, hauthor2, hseq2, hprev, hlen⟩ :=
        common_checks_ok_inv hcc
      show andThen (message_value_common_checks D m.value (some pm.value) mbytes
          (some pm.key) true) (hash_check_tail D mbytes m.key) = VRes.ok
      rw [andThen_ok_iff]
      constructor
      · exact common_checks_ok_intro horder hhash hb64 (by rw [hauthor2, hauth])
          (by rw [hseq2, hseq]) (by rw [hprev, hkey]) hlen
      · exact htail

/-- Witness for C4 amended at the fixtures: the value only validator detects the
fork at the mutated predecessor, the full message validator does not. -/
theorem c4_fork_detection_amended_witness :
    validate_message_value_hash_chain testDeps bytes2 (some bytes1m) =
      VRes.err (VErr.ForkedFeed 1) ∧
    validate_message_hash_chain testDeps kbytes2 (some kbytes1m) = VRes.ok := by
  constructor
  · exact c4_fork_detection_amended.1 testDeps bytes1 bytes1m bytes2 mv1 mv1m mv2
      rfl rfl rfl rfl rfl (by decide) (by decide) (by decide)
  · exact c4_fork_detection_amended.2 testDeps kbytes1 kbytes1m kbytes2 km1 km1m
      rfl rfl rfl rfl rfl (by decide)

/-- C5: multihash_from_bytes digests exactly the byte sequence obtained by
decoding the input as UTF-8, encoding the text as UTF-16 code units and keeping
the low byte of each unit; and whenever the decoded text contains a scalar
outside ASCII, that pre-image differs from the original UTF-8 bytes. -/
theorem c5_utf16_low_byte_preimage :
    (∀ (sha : List Nat → List Nat) (bytes text : List Nat),
       utf8Decode bytes = some text →
       multihash_from_bytes sha bytes =
         some (Multihash.Message (sha (node_buffer_binary_serializer text)))) ∧
    (∀ (bytes text : List Nat) (c : Nat),
       utf8Decode bytes = some text → c ∈ text → 128 ≤ c →
       node_buffer_binary_serializer text ≠ bytes) := by
  constructor
  · intro sha bytes text h
    unfold multihash_from_bytes
    rw [h]
    rfl
  · intro bytes text c h hc h128 hcontra
    have h1 := utf8Decode_length h
    have h2 := node_buffer_binary_serializer_length text
    have h3 := sum_utf16_lt_sum_utf8 text c hc h128
    have h4 : (node_buffer_binary_serializer text).length = bytes.length := by
      rw [hcontra]
    omega

/-- Witness for C5 at the two byte UTF-8 encoding of scalar 233: the pre-image
is the single low byte and differs from the input bytes. -/
theorem c5_utf16_low_byte_preimage_witness :
    multihash_from_bytes (fun b => b) [195, 169] =
      some (Multihash.Message (node_buffer_binary_serializer [233])) ∧
    node_buffer_binary_serializer [233] ≠ [195, 169] := by
  constructor
  · exact c5_utf16_low_byte_preimage.1 (fun b => b) [195, 169] [233] (by decide)
  · exact c5_utf16_low_byte_preimage.2 [195, 169] [233] 233 (by decide) (by decide)
      (by decide)

/-- C10: under the coherence facts the codec provides (bytes that decode
strictly are valid UTF-8, a generic parse of strictly decodable bytes yields an
object, serializer output is valid UTF-8), every public validator returns Ok or
a typed error and never reaches a panic: the unwrap inside multihash_from_bytes
and the non object panic branch are unreachable. -/
theorem c10_validators_no_panic (D : Deps)
    (h1 : ∀ b v, D.fromSliceValue b = some v → (utf8Decode b).isSome = true)
    (h2 : ∀ b m g, D.fromSliceMessage b = some m → D.fromSliceGeneric b = some g →
      ∃ o, g = Value.object o)
    (h3 : ∀ v b, D.toVec v false = some b → (utf8Decode b).isSome = true)
    (mb : List Nat) (pb : Option (List Nat)) :
    validate_message_value D mb ≠ VRes.panicked ∧
    validate_message_value_hash_chain D mb pb ≠ VRes.panicked ∧
    validate_ooo_message_value_hash_chain D mb pb ≠ VRes.panicked ∧
    validate_message_hash_chain D mb pb ≠ VRes.panicked ∧
    validate_ooo_message_hash_chain D mb pb ≠ VRes.panicked ∧
    validate_multi_author_message_hash_chain D mb ≠ VRes.panicked := by
  refine ⟨?_, ?_, ?_, ?_, ?_, ?_⟩
  · unfold validate_message_value
    match hv : D.fromSliceValue mb with
    | none => simp [hv]
    | some mv =>
      try simp only [hv]
      exact common_checks_no_panic (fun hs => hs)
  · match pb with
    | none =>
      unfold validate_message_value_hash_chain
      match hv : D.fromSliceValue mb with
      | none => simp [hv]
      | some mv =>
        try simp only [hv]
        exact common_checks_no_panic (fun hs => by simp at hs)
    | some pbb =>
      unfold validate_message_value_hash_chain
      match hp : D.fromSliceValue pbb with
      | none => simp [hp]
      | some pv0 =>
        try simp only [hp]
        have hut := h1 pbb pv0 hp
        match hmh : multihash_from_bytes D.sha256 pbb with
        | none =>
          exfalso
          unfold multihash_from_bytes at hmh
          rw [Option.map_eq_none'] at hmh
          rw [hmh] at hut
          simp at hut
        | some k =>
          try simp only [hmh]
          match hv : D.fromSliceValue mb with
          | none => simp [hv]
          | some mv =>
            try simp only [hv]
            exact common_checks_no_panic (fun _ => rfl)
  · match pb with
    | none =>
      unfold validate_ooo_message_value_hash_chain
      match hv : D.fromSliceValue mb with
      | none => simp [hv]
      | some mv =>
        try simp only [hv]
        exact common_checks_no_panic (fun hs => hs)
    | some pbb =>
      unfold validate_ooo_message_value_hash_chain
      match hp : D.fromSliceValue pbb with
      | none => simp [hp]
      | some pv0 =>
        try simp only [hp]
        match hv : D.fromSliceValue mb with
        | none => simp [hv]
        | some mv =>
          try simp only [hv]
          exact andThen_ne_panic (common_checks_no_panic (fun hs => hs))
            (by split <;> simp)
  · match pb with
    | none =>
      unfold validate_message_hash_chain
      match hm : D.fromSliceMessage mb with
      | none => simp [hm]
      | some m =>
        try simp only [hm]
        exact andThen_ne_panic (common_checks_no_panic (fun hs => by simp at hs))
          (hash_check_tail_no_panic (fun g hg => h2 mb m g hm hg) h3)
    | some pbb =>
      unfold validate_message_hash_chain
      match hp : D.fromSliceMessage pbb with
      | none => simp [hp]
      | some p0 =>
        try simp only [hp]
        match hm : D.fromSliceMessage mb with
        | none => simp [hm]
        | some m =>
          try simp only [hm]
          exact andThen_ne_panic (common_checks_no_panic (fun _ => rfl))
            (hash_check_tail_no_panic (fun g hg => h2 mb m g hm hg) h3)
  · match pb with
    | none =>
      unfold validate_ooo_message_hash_chain
      match hm : D.fromSliceMessage mb with
      | none => simp [hm]
      | some m =>
        try simp only [hm]
        exact andThen_ne_panic (common_checks_no_panic (fun hs => hs))
          (hash_check_tail_no_panic (fun g hg => h2 mb m g hm hg) h3)
    | some pbb =>
      unfold validate_ooo_message_hash_chain
      match hp : D.fromSliceMessage pbb with
      | none => simp [hp]
      | some p0 =>
        try simp only [hp]
        match hm : D.fromSliceMessage mb with
        | none => simp [hm]
        | some m =>
          try simp only [hm]
          exact andThen_ne_panic (common_checks_no_panic (fun hs => hs))
            (andThen_ne_panic (by split <;> simp)
              (hash_check_tail_no_panic (fun g hg => h2 mb m g hm hg) h3))
  · unfold validate_multi_author_message_hash_chain
    match hm : D.fromSliceMessage mb with
    | none => simp [hm]
    | some m =>
      try simp only [hm]
      exact andThen_ne_panic (common_checks_no_panic (fun hs => hs))
        (hash_check_tail_no_panic (fun g hg => h2 mb m g hm hg) h3)

/-- Witness for C10 at the always failing dependency record. -/
theorem c10_validators_no_panic_witness :
    validate_message_hash_chain emptyDeps bytes1 none ≠ VRes.panicked := by
  exact (c10_validators_no_panic emptyDeps
    (fun b v h => Option.noConfusion h)
    (fun b m g h hg => Option.noConfusion h)
    (fun v b h => Option.noConfusion h) bytes1 none).2.2.2.1
